import Mathlib

/-!
Verification of the router-bridge batch-introspection script
(src/router-bridge/js-src/do_introspect.ts) against its specification.

The script runs in a JS runtime with three ambient globals:
a host capability bridge.batchIntrospect, a completion callback done,
and the inputs sdl / queries.  We embed the script as a pure function
producing the ordered trace of host interactions (capability calls and
done calls) together with the exception status of the run: the second
component is an error exactly when a raised value would escape the
script uncaught.
-/

namespace RouterBridge

/-- Dynamically typed JS values, as far as the bridge manipulates them:
strings, arrays, objects (ordered field lists) and null. -/
inductive JSValue where
  | null : JSValue
  | str : String → JSValue
  | arr : List JSValue → JSValue
  | obj : List (String × JSValue) → JSValue

/-- Modelled from the spec: the OperationResult type imported from
js-src/types.ts, which is not under src.  Per the spec (BatchOutcome) it is
a discriminated value: either Ok with the ordered sequence of introspection
results, or Err with an error payload.  The catch branch of the script
passes the raised value through unchanged, so the Err payload is an
arbitrary JS value. -/
inductive OperationResult where
  | Ok : List JSValue → OperationResult
  | Err : JSValue → OperationResult

/-- The type of the ambient host capability bridge.batchIntrospect as the
script sees it: it takes (sdl, queries) and either returns the list of
introspection results or raises a JS value. -/
def Capability : Type :=
  String → List String → Except JSValue (List JSValue)

/-- One observable host interaction performed by the script: an invocation
of the capability, or an invocation of the completion callback done. -/
inductive Event where
  | capCall : String → List String → Event
  | doneCall : OperationResult → Event

/-- The error payload built by the empty-SDL guard of do_introspect.ts:
a one-element array holding an object whose message field is the string
literal from line 17 of the script. -/
def emptySdlError : JSValue :=
  JSValue.arr [JSValue.obj [("message", JSValue.str "Error in JS-Rust-land: SDL is empty.")]]

/-- Lines 15-19 of do_introspect.ts: if (!sdl) then done is called with the
empty-SDL error.  For a JS string, !s is true exactly when s is the empty
string.  The guard does not return: control always falls through. -/
def guardEvents (sdl : String) : List Event :=
  if sdl = "" then [Event.doneCall (OperationResult.Err emptySdlError)] else []

/-- The body of the try block (lines 22-23): invoke the capability, then
call done with the Ok branch holding its return value.  If the capability
raises, the raise propagates out of the body after the capability call. -/
def tryEvents (cap : Capability) (sdl : String) (queries : List String) :
    List Event × Except JSValue Unit :=
  match cap sdl queries with
  | Except.ok introspected =>
      ([Event.capCall sdl queries,
        Event.doneCall (OperationResult.Ok introspected)], Except.ok ())
  | Except.error err =>
      ([Event.capCall sdl queries], Except.error err)

/-- A try/catch statement: events of the body are kept; if the body raised,
the handler events are appended and the raise is swallowed. -/
def catchWith (body : List Event × Except JSValue Unit)
    (handler : JSValue → List Event) : List Event × Except JSValue Unit :=
  match body with
  | (evs, Except.ok ()) => (evs, Except.ok ())
  | (evs, Except.error e) => (evs ++ handler e, Except.ok ())

/-- The whole script do_introspect.ts: the guard statement followed by the
try/catch whose handler (lines 24-27) calls done with the Err branch
holding the raised value unchanged. -/
def do_introspect (cap : Capability) (sdl : String) (queries : List String) :
    List Event × Except JSValue Unit :=
  let body := catchWith (tryEvents cap sdl queries)
      (fun err => [Event.doneCall (OperationResult.Err err)])
  (guardEvents sdl ++ body.1, body.2)

/-- The ordered list of arguments passed to done over a run. -/
def doneCalls (evs : List Event) : List OperationResult :=
  evs.filterMap fun e =>
    match e with
    | Event.doneCall r => some r
    | _ => none

/-- The ordered list of (sdl, queries) arguments the capability was
invoked with over a run. -/
def capCalls (evs : List Event) : List (String × List String) :=
  evs.filterMap fun e =>
    match e with
    | Event.capCall s qs => some (s, qs)
    | _ => none

/-- Modelled from the spec: the ErrorRecord shape — a message string plus
optional location/path metadata. -/
structure ErrorRecord where
  message : String
  metadata : List (String × JSValue)

/-- An ErrorRecord rendered as the JS object the engine raises: the
message field first, then the metadata fields. -/
def errorRecordToJs (r : ErrorRecord) : JSValue :=
  JSValue.obj (("message", JSValue.str r.message) :: r.metadata)

/-- One observable step of the modelled engine: a parse of the SDL or an
evaluation of one query. -/
inductive EngineEvent where
  | parseCall : String → EngineEvent
  | evalCall : String → EngineEvent

/-- Modelled from the spec: the evaluate-many half of the batch driver.
Each query is evaluated in input order against the shared schema; on the
first evaluation failure the remaining queries are not evaluated
(fail-fast) and the failure propagates. -/
def evalAllTr {Schema : Type} (ev : Schema → String → Except ErrorRecord JSValue)
    (schema : Schema) : List String → List EngineEvent × Except ErrorRecord (List JSValue)
  | [] => ([], Except.ok [])
  | q :: qs =>
    match ev schema q with
    | Except.error e => ([EngineEvent.evalCall q], Except.error e)
    | Except.ok r =>
      match evalAllTr ev schema qs with
      | (evs, Except.error e) => (EngineEvent.evalCall q :: evs, Except.error e)
      | (evs, Except.ok rs) => (EngineEvent.evalCall q :: evs, Except.ok (r :: rs))

/-- Modelled from the spec: the batchIntrospect engine imported from
js-src/index.ts, which is not under src.  Per the spec it parses the SDL
exactly once; if parsing fails it raises the failure branch holding a
single ErrorRecord describing the parse failure and evaluates no query;
otherwise it evaluates each query in order against the shared schema,
raising a single-record failure on the first evaluation error, and on full
success returns the index-aligned list of results.  The schema parser and
the single-query evaluator are abstract parameters. -/
def batchIntrospectTr {Schema : Type} (parse : String → Except ErrorRecord Schema)
    (ev : Schema → String → Except ErrorRecord JSValue)
    (sdl : String) (queries : List String) :
    List EngineEvent × Except JSValue (List JSValue) :=
  match parse sdl with
  | Except.error e =>
      ([EngineEvent.parseCall sdl], Except.error (JSValue.arr [errorRecordToJs e]))
  | Except.ok schema =>
      match evalAllTr ev schema queries with
      | (evs, Except.error e) =>
          (EngineEvent.parseCall sdl :: evs, Except.error (JSValue.arr [errorRecordToJs e]))
      | (evs, Except.ok rs) =>
          (EngineEvent.parseCall sdl :: evs, Except.ok rs)

/-- The modelled engine as a capability: the interaction trace is dropped,
only the returned-or-raised outcome is visible to the script. -/
def batchIntrospect {Schema : Type} (parse : String → Except ErrorRecord Schema)
    (ev : Schema → String → Except ErrorRecord JSValue) : Capability :=
  fun sdl queries => (batchIntrospectTr parse ev sdl queries).2

/-- Whether a JS object carries a message field holding a string. -/
def hasMessageField : JSValue → Bool
  | JSValue.obj fs =>
      fs.any fun p =>
        p.1 == "message" &&
          match p.2 with
          | JSValue.str _ => true
          | _ => false
  | _ => false

/-- Whether a JS value is a non-empty array of records each carrying a
string message field. -/
def isErrorRecordArray : JSValue → Bool
  | JSValue.arr l => !l.isEmpty && l.all hasMessageField
  | _ => false

/-- A capability returning the empty batch, used at concrete inputs. -/
def capOkEmpty : Capability := fun _ _ => Except.ok []

/-- A capability raising the JS value null, used at concrete inputs. -/
def capThrowNull : Capability := fun _ _ => Except.error JSValue.null

/-- A capability extensionally equal to capOkEmpty but syntactically
different, used to exercise two-run determinism. -/
def capOkEmptyB : Capability := fun _ _ => Except.ok ([] ++ [])

/-- A capability returning a one-element batch holding null, used to
exercise the no-validation pass-through. -/
def capOkNull : Capability := fun _ _ => Except.ok [JSValue.null]

/-- A concrete schema parser that accepts every SDL, used at concrete
inputs of the modelled engine. -/
def parseAlways : String → Except ErrorRecord Unit := fun _ => Except.ok ()

/-- A concrete schema parser that rejects every SDL with one record. -/
def parseFailing : String → Except ErrorRecord Unit :=
  fun _ => Except.error ⟨"parse failed", []⟩

/-- A concrete single-query evaluator that answers each query with its own
text, so that result i is identifiable as answering query i. -/
def evalEcho : Unit → String → Except ErrorRecord JSValue :=
  fun _ q => Except.ok (JSValue.str q)

/-!  Helper lemmas about the script trace.  -/

theorem doneCalls_append (a b : List Event) :
    doneCalls (a ++ b) = doneCalls a ++ doneCalls b := by
  simp [doneCalls]

theorem capCalls_append (a b : List Event) :
    capCalls (a ++ b) = capCalls a ++ capCalls b := by
  simp [capCalls]

theorem doneCalls_guard (sdl : String) :
    doneCalls (guardEvents sdl) =
      if sdl = "" then [OperationResult.Err emptySdlError] else [] := by
  by_cases h : sdl = "" <;> simp [guardEvents, doneCalls, h]

theorem capCalls_guard (sdl : String) : capCalls (guardEvents sdl) = [] := by
  by_cases h : sdl = "" <;> simp [guardEvents, capCalls, h]

/-- When the capability returns normally the run trace is the guard events
followed by the capability call and the Ok delivery, with no uncaught
raise. -/
theorem run_ok (cap : Capability) (sdl : String) (queries : List String)
    (v : List JSValue) (h : cap sdl queries = Except.ok v) :
    do_introspect cap sdl queries =
      (guardEvents sdl ++
        [Event.capCall sdl queries, Event.doneCall (OperationResult.Ok v)],
       Except.ok ()) := by
  simp [do_introspect, tryEvents, catchWith, h]

/-- When the capability raises, the run trace is the guard events followed
by the capability call and the Err delivery of the raised value, with no
uncaught raise. -/
theorem run_err (cap : Capability) (sdl : String) (queries : List String)
    (e : JSValue) (h : cap sdl queries = Except.error e) :
    do_introspect cap sdl queries =
      (guardEvents sdl ++
        [Event.capCall sdl queries, Event.doneCall (OperationResult.Err e)],
       Except.ok ()) := by
  simp [do_introspect, tryEvents, catchWith, h]

/-- A raising capability makes every delivered outcome an Err branch. -/
theorem err_run_all_err (cap : Capability) (sdl : String) (queries : List String)
    (e : JSValue) (h : cap sdl queries = Except.error e) (r : OperationResult)
    (hr : r ∈ doneCalls (do_introspect cap sdl queries).1) :
    ∃ payload, r = OperationResult.Err payload := by
  rw [run_err cap sdl queries e h] at hr
  rw [doneCalls_append, doneCalls_guard] at hr
  by_cases hs : sdl = ""
  · simp [hs, doneCalls] at hr
    rcases hr with h1 | h1
    · exact ⟨emptySdlError, h1⟩
    · exact ⟨e, h1⟩
  · simp [hs, doneCalls] at hr
    exact ⟨e, hr⟩

/-- An Ok delivery can only carry the value the capability returned. -/
theorem ok_delivered (cap : Capability) (sdl : String) (queries : List String)
    (v : List JSValue)
    (h : OperationResult.Ok v ∈ doneCalls (do_introspect cap sdl queries).1) :
    cap sdl queries = Except.ok v := by
  cases hc : cap sdl queries with
  | ok w =>
      rw [run_ok cap sdl queries w hc] at h
      rw [doneCalls_append, doneCalls_guard] at h
      by_cases hs : sdl = "" <;> simp [hs, doneCalls] at h <;> rw [h]
  | error e =>
      rcases err_run_all_err cap sdl queries e hc _ h with ⟨p, hp⟩
      cases hp

/-- An Err delivery carries either the guard payload or a value the
capability raised. -/
theorem err_delivered (cap : Capability) (sdl : String) (queries : List String)
    (e : JSValue)
    (h : OperationResult.Err e ∈ doneCalls (do_introspect cap sdl queries).1) :
    e = emptySdlError ∨ cap sdl queries = Except.error e := by
  cases hc : cap sdl queries with
  | ok w =>
      rw [run_ok cap sdl queries w hc] at h
      rw [doneCalls_append, doneCalls_guard] at h
      by_cases hs : sdl = ""
      · simp [hs, doneCalls] at h
        exact Or.inl h
      · simp [hs, doneCalls] at h
  | error e2 =>
      rw [run_err cap sdl queries e2 hc] at h
      rw [doneCalls_append, doneCalls_guard] at h
      by_cases hs : sdl = ""
      · simp [hs, doneCalls] at h
        rcases h with h1 | h1
        · exact Or.inl h1
        · subst h1
          exact Or.inr rfl
      · simp [hs, doneCalls] at h
        subst h
        exact Or.inr rfl

/-- On success the evaluate-many driver returns one result per query, in
input order, each result the evaluation of the query at the same index. -/
theorem evalAllTr_ok {Schema : Type}
    (ev : Schema → String → Except ErrorRecord JSValue) (schema : Schema)
    (qs : List String) (rs : List JSValue)
    (h : (evalAllTr ev schema qs).2 = Except.ok rs) :
    rs.length = qs.length ∧
    ∀ i (hq : i < qs.length) (hr : i < rs.length),
      ev schema (qs.get ⟨i, hq⟩) = Except.ok (rs.get ⟨i, hr⟩) := by
  induction qs generalizing rs with
  | nil =>
      simp [evalAllTr] at h
      subst h
      exact ⟨rfl, fun i hq hr => absurd hq (Nat.not_lt_zero i)⟩
  | cons q qs ih =>
      simp only [evalAllTr] at h
      cases hq : ev schema q with
      | error e =>
          rw [hq] at h
          simp at h
      | ok r =>
          rw [hq] at h
          cases he : evalAllTr ev schema qs with
          | mk evs2 res2 =>
            rw [he] at h
            cases res2 with
            | error e => simp at h
            | ok rs2 =>
              simp at h
              subst h
              obtain ⟨hlen, hidx⟩ := ih rs2 (by rw [he])
              refine ⟨by simp [hlen], ?_⟩
              intro i hqi hri
              cases i with
              | zero => simpa using hq
              | succ j =>
                  exact hidx j (Nat.lt_of_succ_lt_succ hqi)
                    (Nat.lt_of_succ_lt_succ hri)

/-- Unfolding of the modelled engine when the parser succeeds. -/
theorem batchIntrospectTr_parse_ok {Schema : Type}
    (parse : String → Except ErrorRecord Schema)
    (ev : Schema → String → Except ErrorRecord JSValue)
    (sdl : String) (queries : List String) (schema : Schema)
    (hp : parse sdl = Except.ok schema) :
    batchIntrospectTr parse ev sdl queries =
      (match evalAllTr ev schema queries with
       | (evs, Except.error e) =>
           (EngineEvent.parseCall sdl :: evs,
             Except.error (JSValue.arr [errorRecordToJs e]))
       | (evs, Except.ok rs) =>
           (EngineEvent.parseCall sdl :: evs, Except.ok rs)) := by
  unfold batchIntrospectTr
  rw [hp]

/-- On a normal return the modelled engine parsed the SDL successfully and
returned exactly the evaluate-many results. -/
theorem batchIntrospect_ok {Schema : Type}
    (parse : String → Except ErrorRecord Schema)
    (ev : Schema → String → Except ErrorRecord JSValue)
    (sdl : String) (queries : List String) (rs : List JSValue)
    (h : batchIntrospect parse ev sdl queries = Except.ok rs) :
    ∃ schema, parse sdl = Except.ok schema ∧
      (evalAllTr ev schema queries).2 = Except.ok rs := by
  cases hp : parse sdl with
  | error e =>
      unfold batchIntrospect batchIntrospectTr at h
      rw [hp] at h
      simp at h
  | ok schema =>
      cases he : evalAllTr ev schema queries with
      | mk evs res =>
        unfold batchIntrospect at h
        rw [batchIntrospectTr_parse_ok parse ev sdl queries schema hp, he] at h
        cases res with
        | error e => simp at h
        | ok rs2 =>
          simp at h
          subst h
          exact ⟨schema, rfl, by rw [he]⟩

/-- Every value the modelled engine raises is a one-record array built from
an ErrorRecord. -/
theorem batchIntrospect_error_shape {Schema : Type}
    (parse : String → Except ErrorRecord Schema)
    (ev : Schema → String → Except ErrorRecord JSValue)
    (sdl : String) (queries : List String) (e : JSValue)
    (h : batchIntrospect parse ev sdl queries = Except.error e) :
    ∃ rec, e = JSValue.arr [errorRecordToJs rec] := by
  cases hp : parse sdl with
  | error pe =>
      unfold batchIntrospect batchIntrospectTr at h
      rw [hp] at h
      simp at h
      exact ⟨pe, h.symm⟩
  | ok schema =>
      cases he : evalAllTr ev schema queries with
      | mk evs res =>
        unfold batchIntrospect at h
        rw [batchIntrospectTr_parse_ok parse ev sdl queries schema hp, he] at h
        cases res with
        | error ee =>
            simp at h
            exact ⟨ee, h.symm⟩
        | ok rs => simp at h

/-- Claim C1, counterexample: at sdl = "" with no queries and a capability
that returns normally, the capability is invoked (capCalls is non-empty),
done fires twice, and the delivered message text carries the prefix
"Error in JS-Rust-land: " and so differs from the claimed payload whose
message is exactly "SDL is empty.". -/
theorem C1_counterexample :
    capCalls (do_introspect capOkEmpty "" []).1 ≠ [] ∧
    capCalls (do_introspect capOkEmpty "" []).1 = [("", [])] ∧
    doneCalls (do_introspect capOkEmpty "" []).1 =
      [OperationResult.Err emptySdlError, OperationResult.Ok []] ∧
    emptySdlError ≠
      JSValue.arr [JSValue.obj [("message", JSValue.str "SDL is empty.")]] := by
  refine ⟨?_, rfl, rfl, ?_⟩
  · intro h
    simp [capCalls, do_introspect, guardEvents, tryEvents, catchWith, capOkEmpty] at h
  · simp [emptySdlError]

/-- Claim C1, amended: for every capability and query list, invoking with
sdl = "" first delivers the Err outcome whose single record carries the
message "Error in JS-Rust-land: SDL is empty."; the guard does not return,
so the capability is nevertheless invoked, exactly once, on the very same
arguments. -/
theorem C1_empty_sdl (cap : Capability) (queries : List String) :
    (doneCalls (do_introspect cap "" queries).1).head? =
      some (OperationResult.Err emptySdlError) ∧
    capCalls (do_introspect cap "" queries).1 = [("", queries)] := by
  cases h : cap "" queries with
  | ok v =>
      rw [run_ok cap "" queries v h]
      constructor
      · rw [doneCalls_append, doneCalls_guard]
        simp
      · rw [capCalls_append, capCalls_guard]
        simp [capCalls]
  | error e =>
      rw [run_err cap "" queries e h]
      constructor
      · rw [doneCalls_append, doneCalls_guard]
        simp
      · rw [capCalls_append, capCalls_guard]
        simp [capCalls]

/-- Claim C2: whenever the capability raises, the script catches the raise
at the boundary: the run finishes with no uncaught raise, and the raised
value is delivered to done wrapped in the Err branch, so the caller always
receives an OperationResult value. -/
theorem C2_catch_normalizes (cap : Capability) (sdl : String)
    (queries : List String) (e : JSValue)
    (h : cap sdl queries = Except.error e) :
    (do_introspect cap sdl queries).2 = Except.ok () ∧
    OperationResult.Err e ∈ doneCalls (do_introspect cap sdl queries).1 := by
  rw [run_err cap sdl queries e h]
  refine ⟨rfl, ?_⟩
  rw [doneCalls_append]
  simp [doneCalls]

/-- Witness for C2 at a concrete raising capability. -/
theorem C2_catch_normalizes_witness :
    (do_introspect capThrowNull "type Query" []).2 = Except.ok () ∧
    OperationResult.Err JSValue.null ∈
      doneCalls (do_introspect capThrowNull "type Query" []).1 :=
  C2_catch_normalizes capThrowNull "type Query" [] JSValue.null rfl

/-- Claim C3: when evaluation of the batch fails (the capability raises),
every outcome the script delivers is the Err branch: no delivered outcome
mixes successes for some queries with errors for others. -/
theorem C3_all_or_nothing (cap : Capability) (sdl : String)
    (queries : List String) (e : JSValue)
    (h : cap sdl queries = Except.error e) (r : OperationResult)
    (hr : r ∈ doneCalls (do_introspect cap sdl queries).1) :
    ∃ payload, r = OperationResult.Err payload :=
  err_run_all_err cap sdl queries e h r hr

/-- Witness for C3 at a concrete raising capability. -/
theorem C3_all_or_nothing_witness :
    ∃ payload, OperationResult.Err JSValue.null = OperationResult.Err payload :=
  C3_all_or_nothing capThrowNull "type Query" [] JSValue.null rfl
    (OperationResult.Err JSValue.null)
    (by simp [do_introspect, guardEvents, tryEvents, catchWith, capThrowNull, doneCalls])

/-- Claim C5: the script is deterministic: two invocations with identical
(sdl, queries) inputs and extensionally equal capabilities produce
structurally identical traces, hence identical delivered outcomes. -/
theorem C5_determinism (cap₁ cap₂ : Capability) (sdl : String)
    (queries : List String) (h : ∀ s qs, cap₁ s qs = cap₂ s qs) :
    do_introspect cap₁ sdl queries = do_introspect cap₂ sdl queries := by
  simp [do_introspect, tryEvents, h sdl queries]

/-- Witness for C5: two syntactically different capabilities with equal
behaviour give identical runs. -/
theorem C5_determinism_witness :
    do_introspect capOkEmpty "type Query" ["q"] =
      do_introspect capOkEmptyB "type Query" ["q"] :=
  C5_determinism capOkEmpty capOkEmptyB "type Query" ["q"] (fun _ _ => rfl)

/-- Claim C6, counterexample: a whitespace-only SDL is not rejected: the
guard lets it through, no precondition-failure outcome is delivered, and
the capability (hence the parser behind it) is invoked on it. -/
theorem C6_counterexample :
    doneCalls (do_introspect capOkEmpty " " []).1 = [OperationResult.Ok []] ∧
    capCalls (do_introspect capOkEmpty " " []).1 = [(" ", [])] :=
  ⟨rfl, rfl⟩

/-- Claim C6, amended: only the exactly-empty SDL string triggers the
precondition-failure outcome.  For every non-empty SDL — whitespace-only
ones included — no guard outcome is delivered: each delivered outcome is
exactly the one derived from the capability, and the capability is invoked
on the input; the empty SDL too fails to prevent that invocation. -/
theorem C6_only_empty_guarded (cap : Capability) (sdl : String)
    (queries : List String) (h : sdl ≠ "") :
    (∀ r ∈ doneCalls (do_introspect cap sdl queries).1,
      match cap sdl queries with
      | Except.ok v => r = OperationResult.Ok v
      | Except.error e => r = OperationResult.Err e) ∧
    capCalls (do_introspect cap sdl queries).1 = [(sdl, queries)] := by
  cases hc : cap sdl queries with
  | ok v =>
      rw [run_ok cap sdl queries v hc]
      constructor
      · intro r hr
        rw [doneCalls_append, doneCalls_guard] at hr
        simp [h, doneCalls] at hr
        simp [hc, hr]
      · rw [capCalls_append, capCalls_guard]
        simp [capCalls]
  | error e =>
      rw [run_err cap sdl queries e hc]
      constructor
      · intro r hr
        rw [doneCalls_append, doneCalls_guard] at hr
        simp [h, doneCalls] at hr
        simp [hc, hr]
      · rw [capCalls_append, capCalls_guard]
        simp [capCalls]

/-- Witness for C6 at the whitespace-only SDL. -/
theorem C6_only_empty_guarded_witness :
    (∀ r ∈ doneCalls (do_introspect capOkEmpty " " []).1,
      match capOkEmpty " " [] with
      | Except.ok v => r = OperationResult.Ok v
      | Except.error e => r = OperationResult.Err e) ∧
    capCalls (do_introspect capOkEmpty " " []).1 = [(" ", [])] :=
  C6_only_empty_guarded capOkEmpty " " [] (by decide)

/-- Claim C9: with sdl = "" and a capability that returns normally, done is
invoked twice in a single run: first with the empty-SDL Err outcome and
then with the Ok outcome built from the capability result. -/
theorem C9_done_twice (cap : Capability) (queries : List String)
    (v : List JSValue) (h : cap "" queries = Except.ok v) :
    doneCalls (do_introspect cap "" queries).1 =
      [OperationResult.Err emptySdlError, OperationResult.Ok v] := by
  rw [run_ok cap "" queries v h, doneCalls_append, doneCalls_guard]
  simp [doneCalls]

/-- Witness for C9 at a concrete normally-returning capability. -/
theorem C9_done_twice_witness :
    doneCalls (do_introspect capOkEmpty "" ["q"]).1 =
      [OperationResult.Err emptySdlError, OperationResult.Ok []] :=
  C9_done_twice capOkEmpty ["q"] [] rfl

/-- Claim C10: when the capability returns a value v normally, the script
delivers the Ok branch holding exactly v, untouched; besides the possible
empty-SDL guard outcome nothing else is delivered, and no inspection,
validation or transformation is applied to v. -/
theorem C10_passthrough (cap : Capability) (sdl : String)
    (queries : List String) (v : List JSValue)
    (h : cap sdl queries = Except.ok v) :
    doneCalls (do_introspect cap sdl queries).1 =
      (if sdl = "" then [OperationResult.Err emptySdlError] else []) ++
        [OperationResult.Ok v] := by
  rw [run_ok cap sdl queries v h, doneCalls_append, doneCalls_guard]
  simp [doneCalls]

/-- Witness for C10 at a capability returning a one-element batch. -/
theorem C10_passthrough_witness :
    doneCalls (do_introspect capOkNull "type Query" ["q"]).1 =
      (if "type Query" = "" then [OperationResult.Err emptySdlError] else []) ++
        [OperationResult.Ok [JSValue.null]] :=
  C10_passthrough capOkNull "type Query" ["q"] [JSValue.null] rfl

/-- Claim C4: whenever the script, driven by the engine modelled from the
spec, delivers a success outcome, the Ok array holds exactly one result
per input query, in input order, and result i is the evaluation of query i
against the schema parsed from the SDL. -/
theorem C4_index_alignment {Schema : Type}
    (parse : String → Except ErrorRecord Schema)
    (ev : Schema → String → Except ErrorRecord JSValue)
    (sdl : String) (queries : List String) (results : List JSValue)
    (h : OperationResult.Ok results ∈
      doneCalls (do_introspect (batchIntrospect parse ev) sdl queries).1) :
    results.length = queries.length ∧
    ∃ schema, parse sdl = Except.ok schema ∧
      ∀ i (hq : i < queries.length) (hr : i < results.length),
        ev schema (queries.get ⟨i, hq⟩) = Except.ok (results.get ⟨i, hr⟩) := by
  have hc := ok_delivered _ sdl queries results h
  rcases batchIntrospect_ok parse ev sdl queries results hc with ⟨schema, hp, he⟩
  rcases evalAllTr_ok ev schema queries results he with ⟨hlen, hidx⟩
  exact ⟨hlen, schema, hp, hidx⟩

/-- Witness for C4 at a concrete accepting parser and echoing evaluator. -/
theorem C4_index_alignment_witness :
    ([JSValue.str "q1", JSValue.str "q2"] : List JSValue).length =
      (["q1", "q2"] : List String).length ∧
    ∃ schema, parseAlways "type Query" = Except.ok schema ∧
      ∀ i (hq : i < (["q1", "q2"] : List String).length)
        (hr : i < ([JSValue.str "q1", JSValue.str "q2"] : List JSValue).length),
        evalEcho schema ((["q1", "q2"] : List String).get ⟨i, hq⟩) =
          Except.ok (([JSValue.str "q1", JSValue.str "q2"] : List JSValue).get ⟨i, hr⟩) :=
  C4_index_alignment parseAlways evalEcho "type Query" ["q1", "q2"]
    [JSValue.str "q1", JSValue.str "q2"]
    (by rw [show doneCalls
        (do_introspect (batchIntrospect parseAlways evalEcho) "type Query" ["q1", "q2"]).1 =
        [OperationResult.Ok [JSValue.str "q1", JSValue.str "q2"]] from rfl]
        exact List.mem_singleton.mpr rfl)

/-- Claim C7: with the engine modelled from the spec, every failure branch
the script delivers carries a non-empty array of records, each of which has
a message field holding a string. -/
theorem C7_error_shape {Schema : Type}
    (parse : String → Except ErrorRecord Schema)
    (ev : Schema → String → Except ErrorRecord JSValue)
    (sdl : String) (queries : List String) (e : JSValue)
    (h : OperationResult.Err e ∈
      doneCalls (do_introspect (batchIntrospect parse ev) sdl queries).1) :
    isErrorRecordArray e = true := by
  rcases err_delivered _ sdl queries e h with h1 | h1
  · subst h1
    rfl
  · rcases batchIntrospect_error_shape parse ev sdl queries e h1 with ⟨rec, hrec⟩
    subst hrec
    simp [isErrorRecordArray, hasMessageField, errorRecordToJs]

/-- Witness for C7 at a concrete failing parser. -/
theorem C7_error_shape_witness :
    isErrorRecordArray
      (JSValue.arr [JSValue.obj [("message", JSValue.str "parse failed")]]) = true :=
  C7_error_shape parseFailing evalEcho "type Query" []
    (JSValue.arr [JSValue.obj [("message", JSValue.str "parse failed")]])
    (by rw [show doneCalls
        (do_introspect (batchIntrospect parseFailing evalEcho) "type Query" []).1 =
        [OperationResult.Err
          (JSValue.arr [JSValue.obj [("message", JSValue.str "parse failed")]])] from rfl]
        exact List.mem_singleton.mpr rfl)

/-- Claim C8: with the engine modelled from the spec, when the SDL fails to
parse the engine performs exactly one parse call and no query evaluation,
raises a one-record failure describing the parse error, and every outcome
the script delivers for that input is the Err branch. -/
theorem C8_parse_failure {Schema : Type}
    (parse : String → Except ErrorRecord Schema)
    (ev : Schema → String → Except ErrorRecord JSValue)
    (sdl : String) (queries : List String) (pe : ErrorRecord)
    (h : parse sdl = Except.error pe) :
    batchIntrospectTr parse ev sdl queries =
      ([EngineEvent.parseCall sdl],
        Except.error (JSValue.arr [errorRecordToJs pe])) ∧
    ∀ r ∈ doneCalls (do_introspect (batchIntrospect parse ev) sdl queries).1,
      ∃ p, r = OperationResult.Err p := by
  have h1 : batchIntrospectTr parse ev sdl queries =
      ([EngineEvent.parseCall sdl],
        Except.error (JSValue.arr [errorRecordToJs pe])) := by
    unfold batchIntrospectTr
    rw [h]
  refine ⟨h1, ?_⟩
  intro r hr
  refine err_run_all_err _ sdl queries (JSValue.arr [errorRecordToJs pe]) ?_ r hr
  unfold batchIntrospect
  rw [h1]

/-- Witness for C8 at a concrete failing parser. -/
theorem C8_parse_failure_witness :
    batchIntrospectTr parseFailing evalEcho "type Query" ["q"] =
      ([EngineEvent.parseCall "type Query"],
        Except.error (JSValue.arr [JSValue.obj [("message", JSValue.str "parse failed")]])) ∧
    ∀ r ∈ doneCalls
        (do_introspect (batchIntrospect parseFailing evalEcho) "type Query" ["q"]).1,
      ∃ p, r = OperationResult.Err p :=
  C8_parse_failure parseFailing evalEcho "type Query" ["q"] ⟨"parse failed", []⟩ rfl

end RouterBridge
